import Mathlib

/-!
Verification of the Fourier-domain utilities of the tiltlib repository
(src/libtilt/utils/fft.py, src/libtilt/projection/fourier.py,
src/libtilt/shapes/shapes_3d.py).

Arrays are modelled as total functions on ℕ (or ℤ) indices carrying values in
an exact model `Cx` of the complex numbers (torch complex tensors, with the
floating-point arithmetic idealised over ℚ).  Shapes, where a claim is about
them, are modelled as lists of ℕ.  Each definition is annotated with the
source lines it translates.
-/

set_option linter.unusedVariables false

namespace Tiltlib

/-! ## Definitions: the shallow embedding of the source -/

/-- Exact model of a complex scalar (a torch complex64 value): real and
imaginary parts as rationals. -/
structure Cx where
  re : ℚ
  im : ℚ
deriving DecidableEq, Repr

instance : Zero Cx := ⟨⟨0, 0⟩⟩

instance : Add Cx := ⟨fun a b => ⟨a.re + b.re, a.im + b.im⟩⟩

instance : Neg Cx := ⟨fun a => ⟨-a.re, -a.im⟩⟩

instance : SMul ℚ Cx := ⟨fun q a => ⟨q * a.re, q * a.im⟩⟩

/-- torch.conj on a complex scalar. -/
def Cx.conj (a : Cx) : Cx := ⟨a.re, -a.im⟩

/-- The scalar 0.5 appearing in the Nyquist-averaging code. -/
def half : ℚ := 1 / 2

/-! ### rfft_shape_from_signal_shape and fft_center
(src/src/libtilt/utils/fft.py, lines 8-27) -/

/-- Replace the last element of a list (the python `xs[-1] = v` write); the
empty list (where python would raise) is left empty. -/
def setLast (v : ℕ) : List ℕ → List ℕ
  | [] => []
  | [_] => [v]
  | x :: y :: xs => x :: setLast v (y :: xs)

/-- rfft_shape_from_signal_shape (fft.py lines 8-12): every axis unchanged
except the last, which becomes int(l/2 + 1) = l / 2 + 1 in ℕ division. -/
def rfft_shape_from_signal_shape : List ℕ → List ℕ
  | [] => []
  | [l] => [l / 2 + 1]
  | x :: y :: xs => x :: rfft_shape_from_signal_shape (y :: xs)

/-- fft_center (fft.py lines 15-27): start from zeros; adjust the shape when
rfft; floor-divide by 2 when fftshifted; force the last entry to 0 when
rfft. -/
def fft_center (grid_shape : List ℕ) (fftshifted rfft : Bool) : List ℕ :=
  let gs := if rfft then rfft_shape_from_signal_shape grid_shape else grid_shape
  let c1 := if fftshifted then gs.map (fun l => l / 2)
            else List.replicate grid_shape.length 0
  if rfft then setLast 0 c1 else c1

/-! ### rfft_to_symmetrised_dft_2d (fft.py, lines 88-128)

The input rfft has logical shape (N, N/2+1) for even sidelength N and the
output (N+1, N+1); arrays are total functions on ℕ × ℕ.  The batch axis of the
batched variant is a passthrough index and is omitted. -/

/-- The right half (columns dc..N) of the symmetrised output after the two
placement writes of fft.py lines 124-125: rows 0..N-1 hold the row-fftshifted
rfft, row N replicates the shifted row 0 (the Nyquist row).  fftshift along a
length-N axis is a roll by N/2: index i reads (i + (N - N/2)) % N. -/
def symRight2d (N : ℕ) (X : ℕ → ℕ → Cx) (a b : ℕ) : Cx :=
  if a < N then X ((a + (N - N / 2)) % N) (b - N / 2)
  else X ((0 + (N - N / 2)) % N) (b - N / 2)

/-- rfft_to_symmetrised_dft_2d (fft.py lines 88-128): columns below dc = N/2
are the conjugate of the doubly-flipped columns dc+1.. (line 127); the rest is
the placed rfft with the replicated Nyquist row. -/
def rfft_to_symmetrised_dft_2d (N : ℕ) (X : ℕ → ℕ → Cx) (i j : ℕ) : Cx :=
  if j < N / 2 then Cx.conj (symRight2d N X (N - i) (N - j))
  else symRight2d N X i j

/-! ### rfft_to_symmetrised_dft_3d (fft.py, lines 131-164) -/

/-- The right half (last index ≥ dc) of the 3D symmetrised output after the
four placement writes of fft.py lines 156-160: the two full axes are
fftshifted, and index N on either full axis replicates index 0 of the shifted
input. -/
def symRight3d (N : ℕ) (X : ℕ → ℕ → ℕ → Cx) (a b c : ℕ) : Cx :=
  let sh : ℕ → ℕ := fun i => (i + (N - N / 2)) % N
  if a < N then
    (if b < N then X (sh a) (sh b) (c - N / 2) else X (sh a) (sh 0) (c - N / 2))
  else
    (if b < N then X (sh 0) (sh b) (c - N / 2) else X (sh 0) (sh 0) (c - N / 2))

/-- rfft_to_symmetrised_dft_3d (fft.py lines 131-164): indices below dc = N/2
on the last axis are the conjugate of the triply-flipped right half (lines
162-163). -/
def rfft_to_symmetrised_dft_3d (N : ℕ) (X : ℕ → ℕ → ℕ → Cx) (z y x : ℕ) : Cx :=
  if x < N / 2 then Cx.conj (symRight3d N X (N - z) (N - y) (N - x))
  else symRight3d N X z y x

/-! ### symmetrised_dft_to_dft_2d / _3d (fft.py, lines 167-193 and 213-240)

Each function performs in-place averaging writes on the full (h, w[, d])
buffer and returns the view that drops the last index of every symmetrised
axis.  `..._writes` is the state of the buffer after the writes; the returned
view has the same values on the retained indices.  `..._input_after` is the
caller's buffer after the call: the written state when inplace, the untouched
input otherwise (the code clones first when inplace is False). -/

/-- Average with weights 0.5/0.5, the expression 0.5 * a + 0.5 * b. -/
def avg (a b : Cx) : Cx := half • a + half • b

/-- Buffer state after the two writes of symmetrised_dft_to_dft_2d (fft.py
lines 191-192): first the column write dft[..., :, 0], then the row write
dft[..., 0, :] (which reads the already-updated column values). -/
def symmetrised_dft_to_dft_2d_writes (h w : ℕ) (A : ℕ → ℕ → Cx)
    (i j : ℕ) : Cx :=
  let B : ℕ → ℕ → Cx := fun a b => if b = 0 then avg (A a 0) (A a (w - 1)) else A a b
  if i = 0 then avg (B 0 j) (B (h - 1) j) else B i j

/-- symmetrised_dft_to_dft_2d return value (fft.py line 193): the written
buffer, viewed on rows 0..h-2 and columns 0..w-2. -/
def symmetrised_dft_to_dft_2d (h w : ℕ) (A : ℕ → ℕ → Cx) : ℕ → ℕ → Cx :=
  symmetrised_dft_to_dft_2d_writes h w A

/-- The caller's buffer after symmetrised_dft_to_dft_2d (fft.py lines
189-190): mutated in place when inplace, untouched otherwise. -/
def symmetrised_dft_to_dft_2d_input_after (h w : ℕ) (A : ℕ → ℕ → Cx)
    (inplace : Bool) : ℕ → ℕ → Cx :=
  if inplace then symmetrised_dft_to_dft_2d_writes h w A else A

/-- Shape of dft[..., :-1, :-1] (fft.py line 193): both trailing axes lose
their last index. -/
def decLastTwo : List ℕ → List ℕ
  | [] => []
  | [a] => [a]
  | [a, b] => [a - 1, b - 1]
  | a :: b :: c :: rest => a :: decLastTwo (b :: c :: rest)

/-- Buffer state after the three writes of symmetrised_dft_to_dft_3d (fft.py
lines 237-239): the last axis, then the middle axis (reading the updated last
axis), then the first axis (reading both earlier updates). -/
def symmetrised_dft_to_dft_3d_writes (d h w : ℕ) (A : ℕ → ℕ → ℕ → Cx)
    (i j k : ℕ) : Cx :=
  let B : ℕ → ℕ → ℕ → Cx := fun a b c =>
    if c = 0 then avg (A a b 0) (A a b (w - 1)) else A a b c
  let C : ℕ → ℕ → ℕ → Cx := fun a b c =>
    if b = 0 then avg (B a 0 c) (B a (h - 1) c) else B a b c
  if i = 0 then avg (C 0 j k) (C (d - 1) j k) else C i j k

/-- symmetrised_dft_to_dft_3d return value (fft.py line 240). -/
def symmetrised_dft_to_dft_3d (d h w : ℕ) (A : ℕ → ℕ → ℕ → Cx) :
    ℕ → ℕ → ℕ → Cx :=
  symmetrised_dft_to_dft_3d_writes d h w A

/-- The caller's buffer after symmetrised_dft_to_dft_3d (fft.py lines
235-236). -/
def symmetrised_dft_to_dft_3d_input_after (d h w : ℕ) (A : ℕ → ℕ → ℕ → Cx)
    (inplace : Bool) : ℕ → ℕ → ℕ → Cx :=
  if inplace then symmetrised_dft_to_dft_3d_writes d h w A else A

/-- Shape of dft[..., :-1, :-1, :-1] (fft.py line 240). -/
def decLastThree : List ℕ → List ℕ
  | [] => []
  | [a] => [a]
  | [a, b] => [a, b]
  | [a, b, c] => [a - 1, b - 1, c - 1]
  | a :: b :: c :: e :: rest => a :: decLastThree (b :: c :: e :: rest)

/-- The `inplace` default of symmetrised_dft_to_dft_2d (fft.py line 167). -/
def symmetrised_dft_to_dft_2d_inplace_default : Bool := true

/-- The `inplace` default of symmetrised_dft_to_dft_3d (fft.py line 213). -/
def symmetrised_dft_to_dft_3d_inplace_default : Bool := true

/-- The `inplace` default of symmetrised_dft_to_rfft_2d (fft.py line 196). -/
def symmetrised_dft_to_rfft_2d_inplace_default : Bool := true

/-! ### symmetrised_dft_to_rfft_2d (fft.py, lines 196-210)

A bare 2D input is given a leading batch axis of size 1 (line 198); the batch
axis is a value passthrough, so values are modelled without it and the shape
effect is modelled separately by `symmetrised_dft_to_rfft_2d_shape`.  The
square input has h = w = N + 1 for even N; dc = h / 2. -/

/-- Buffer state after the half-averaging write of fft.py lines 204-205:
columns r.. (r = dc + 1) become 0.5 times themselves plus 0.5 times the
conjugate of the doubly-flipped columns 0..dc-1 (which the write leaves
untouched). -/
def symToRfft2dStep1 (h : ℕ) (S : ℕ → ℕ → Cx) (a b : ℕ) : Cx :=
  if h / 2 + 1 ≤ b then
    avg (S a b) (Cx.conj (S (h - 1 - a) (h / 2 - 1 - (b - (h / 2 + 1)))))
  else S a b

/-- Buffer state after the Nyquist-row write of fft.py line 207: row 0,
columns r.., becomes the average of rows 0 and h-1 of the step-1 state. -/
def symmetrised_dft_to_rfft_2d_writes (h : ℕ) (S : ℕ → ℕ → Cx) (a b : ℕ) : Cx :=
  if a = 0 ∧ h / 2 + 1 ≤ b then
    avg (symToRfft2dStep1 h S 0 b) (symToRfft2dStep1 h S (h - 1) b)
  else symToRfft2dStep1 h S a b

/-- symmetrised_dft_to_rfft_2d return value (fft.py lines 209-210): the
written buffer viewed on rows 0..h-2 and columns dc.., then ifftshift (a roll
by -(n/2), n = h - 1) along the row axis. -/
def symmetrised_dft_to_rfft_2d (h : ℕ) (S : ℕ → ℕ → Cx) (i j : ℕ) : Cx :=
  symmetrised_dft_to_rfft_2d_writes h S ((i + (h - 1) / 2) % (h - 1)) (h / 2 + j)

/-- The caller's buffer after symmetrised_dft_to_rfft_2d (fft.py line 202):
the slicing and ifftshift allocate fresh views/tensors, so the buffer keeps
all the averaging writes when inplace, and is untouched otherwise. -/
def symmetrised_dft_to_rfft_2d_input_after (h : ℕ) (S : ℕ → ℕ → Cx)
    (inplace : Bool) : ℕ → ℕ → Cx :=
  if inplace then symmetrised_dft_to_rfft_2d_writes h S else S

/-- Shape behaviour of symmetrised_dft_to_rfft_2d (fft.py lines 197-210): a
2-element shape gains a leading batch axis of 1 (line 198); the result keeps
that batch axis and has rows :-1 and columns dc: of the (h, w) axes. -/
def symmetrised_dft_to_rfft_2d_shape (s : List ℕ) : List ℕ :=
  let s3 := if s.length = 2 then 1 :: s else s
  match s3 with
  | [b, h, w] => [b, h - 1, w - h / 2]
  | other => other

/-! ### Claim C8: the inplace flag and the caller's buffer -/

/-- A concrete 3 × 3 test buffer. -/
def exA : ℕ → ℕ → Cx := fun i j => ⟨i, j⟩

/-- A concrete 3 × 3 × 3 test buffer. -/
def exA3 : ℕ → ℕ → ℕ → Cx := fun i j k => ⟨i + k, j⟩

/-! ### extract_slices (src/src/libtilt/projection/fourier.py, lines 12-65)

Modelled per output pixel: the (batch, h, w) structure is a passthrough.  The
cubic dft volume is a total function ℤ → ℤ → ℤ → Cx (data lives on
[0, d-1]³); a slice coordinate is a zyx triple of rationals. -/

/-- A zyx triple of rational coordinates. -/
abbrev Q3 := ℚ × ℚ × ℚ

/-- Modelled from the spec: array_to_grid_sample (libtilt.utils.coordinates,
body not in the provided sources) linearly remaps one axis' array coordinate
from [0, N-1] to [-1, 1]. -/
def array_to_grid_sample (n : ℕ) (c : ℚ) : ℚ := 2 * c / ((n : ℚ) - 1) - 1

/-- Clamp an integer index into [0, n-1]: the reads of
padding_mode='border'. -/
def clampIdx (n : ℕ) (i : ℤ) : ℤ := max 0 (min ((n : ℤ) - 1) i)

/-- Linear interpolation (1 - t) * a + t * b between two complex samples; the
real and imaginary channels are interpolated with the same weights, as the
two-channel workaround of fourier.py lines 39-44 does. -/
def lerp (t : ℚ) (a b : Cx) : Cx := (1 - t) • a + t • b

/-- F.grid_sample for one point (fourier.py lines 49-55): align_corners=True
unnormalizes g ∈ [-1, 1] to (g + 1) / 2 * (n - 1); trilinear interpolation
between the eight neighbouring voxels with border-clamped reads. -/
def grid_sample_point (n : ℕ) (f : ℤ → ℤ → ℤ → Cx) (g : Q3) : Cx :=
  let unnorm : ℚ → ℚ := fun v => (v + 1) / 2 * ((n : ℚ) - 1)
  let z := unnorm g.1
  let y := unnorm g.2.1
  let x := unnorm g.2.2
  let z0 := clampIdx n ⌊z⌋
  let z1 := clampIdx n (⌊z⌋ + 1)
  let y0 := clampIdx n ⌊y⌋
  let y1 := clampIdx n (⌊y⌋ + 1)
  let x0 := clampIdx n ⌊x⌋
  let x1 := clampIdx n (⌊x⌋ + 1)
  let tz := z - (⌊z⌋ : ℚ)
  let ty := y - (⌊y⌋ : ℚ)
  let tx := x - (⌊x⌋ : ℚ)
  lerp tz
    (lerp ty (lerp tx (f z0 y0 x0) (f z0 y0 x1))
             (lerp tx (f z0 y1 x0) (f z0 y1 x1)))
    (lerp ty (lerp tx (f z1 y0 x0) (f z1 y0 x1))
             (lerp tx (f z1 y1 x0) (f z1 y1 x1)))

/-- The per-point inside-cube test of fourier.py line 58, exactly as written:
torch.logical_or(coords > 0, coords < 1), then torch.all over the coordinate
axis (line 59).  The compared coords are the grid-sample coordinates. -/
def inside_test (g : Q3) : Bool :=
  (decide (g.1 > 0) || decide (g.1 < 1))
    && (decide (g.2.1 > 0) || decide (g.2.1 < 1))
    && (decide (g.2.2 > 0) || decide (g.2.2 < 1))

/-- extract_slices for one output pixel (fourier.py lines 12-65): convert the
zyx array coordinate to grid-sample space, trilinear-sample with border
padding and align_corners, then zero the sample where the inside test fails
(samples[~inside] *= 0, line 61). -/
def extract_slices_point (n : ℕ) (dft : ℤ → ℤ → ℤ → Cx) (c : Q3) : Cx :=
  let g : Q3 := (array_to_grid_sample n c.1, array_to_grid_sample n c.2.1,
    array_to_grid_sample n c.2.2)
  let s := grid_sample_point n dft g
  if inside_test g then s else (0 : ℚ) • s

/-! ### Claim C2: the cuboid mask -/

/-- Modelled from the spec: coordinate_grid (libtilt.grids, body not in the
provided sources) returns per-voxel coordinates relative to the given center;
the default center is the fftshifted DFT center, floor(n_i/2) per axis
(dft_center with fftshifted=True, rfft=False). -/
def coordinate_offset (shape : ℕ × ℕ × ℕ) (v : ℕ × ℕ × ℕ) : Q3 :=
  ((v.1 : ℚ) - ((shape.1 / 2 : ℕ) : ℚ),
   (v.2.1 : ℚ) - ((shape.2.1 / 2 : ℕ) : ℚ),
   (v.2.2 : ℚ) - ((shape.2.2 / 2 : ℕ) : ℚ))

/-- cuboid (src/src/libtilt/shapes/shapes_3d.py lines 31-53) with
smoothing_radius = 0 (add_soft_edge_3d is then the cast of the boolean mask to
0/1, per the spec contract) and the default center.  The bounds are exactly
the source's: dd = dims0/2 is computed but unused; the depth test uses dh =
dims1/2 and both the height and width tests use dw = dims2/2 (lines 47-50). -/
def cuboid (dims : Q3) (shape : ℕ × ℕ × ℕ) (v : ℕ × ℕ × ℕ) : ℚ :=
  let c := coordinate_offset shape v
  let dd := dims.1 / 2
  let dh := dims.2.1 / 2
  let dw := dims.2.2 / 2
  let depth_mask := decide (c.1 > -dh) && decide (c.1 < dh)
  let height_mask := decide (c.2.1 > -dw) && decide (c.2.1 < dw)
  let width_mask := decide (c.2.2 > -dw) && decide (c.2.2 < dw)
  if depth_mask && height_mask && width_mask then 1 else 0

/-- The claim's reading of cuboid, stated from the claim's words for
comparison: each axis' offset tested against half of its own dimension (depth
bound dims0/2, height bound dims1/2, width bound dims2/2). -/
def cuboid_claimed (dims : Q3) (shape : ℕ × ℕ × ℕ) (v : ℕ × ℕ × ℕ) : ℚ :=
  let c := coordinate_offset shape v
  if (-(dims.1 / 2) < c.1 ∧ c.1 < dims.1 / 2)
      ∧ (-(dims.2.1 / 2) < c.2.1 ∧ c.2.1 < dims.2.1 / 2)
      ∧ (-(dims.2.2 / 2) < c.2.2 ∧ c.2.2 < dims.2.2 / 2) then 1 else 0

/-! ### Claim C5: conjugate redirection in project -/

/-- project (fourier.py lines 121-124): the redundant-half mask is
grid[..., 2] < 0, and grid[mask-repeated-to-3] *= -1 negates all three
frequency coordinates of every flagged point. -/
def redirected_grid (g : Q3) : Q3 :=
  if g.2.2 < 0 then (-g.1, -g.2.1, -g.2.2) else g

/-- project (fourier.py line 122): the per-point was-redirected flag. -/
def in_redundant_half (g : Q3) : Bool := decide (g.2.2 < 0)

/-- project (fourier.py lines 127-153) dataflow for one grid point: the
redirected grid goes through fftfreq_to_dft_coordinates (abstracted as toDft —
its body is not in the provided sources) and extract_slices (abstracted as
sample over the dft coordinates), and the sampled value is conjugated at
exactly the flagged points (line 153). -/
def project_sample (toDft : Q3 → Q3) (sample : Q3 → Cx) (g : Q3) : Cx :=
  let s := sample (toDft (redirected_grid g))
  if in_redundant_half g then Cx.conj s else s

/-! ## Theorems -/

theorem Cx.add_def (a b : Cx) : a + b = ⟨a.re + b.re, a.im + b.im⟩ := rfl

theorem Cx.smul_def (q : ℚ) (a : Cx) : q • a = ⟨q * a.re, q * a.im⟩ := rfl

theorem Cx.conj_conj (a : Cx) : a.conj.conj = a := by
  cases a; simp [Cx.conj]

theorem half_smul_add (x : Cx) : half • x + half • x = x := by
  cases x
  simp only [Cx.smul_def, Cx.add_def, half, Cx.mk.injEq]
  constructor <;> ring

theorem setLast_length (v : ℕ) : ∀ l : List ℕ, (setLast v l).length = l.length
  | [] => rfl
  | [_] => rfl
  | x :: y :: xs => by
      show (x :: setLast v (y :: xs)).length = (x :: y :: xs).length
      rw [List.length_cons, List.length_cons, setLast_length v (y :: xs)]

theorem rfft_shape_length :
    ∀ l : List ℕ, (rfft_shape_from_signal_shape l).length = l.length
  | [] => rfl
  | [_] => rfl
  | x :: y :: xs => by
      show (x :: rfft_shape_from_signal_shape (y :: xs)).length
        = (x :: y :: xs).length
      rw [List.length_cons, List.length_cons, rfft_shape_length (y :: xs)]

theorem setLast_get?_of_lt (v : ℕ) :
    ∀ (l : List ℕ) (i : ℕ), i + 1 < l.length → (setLast v l).get? i = l.get? i
  | [], _, h => by simp at h
  | [_], i, h => by simp at h
  | x :: y :: xs, 0, h => rfl
  | x :: y :: xs, i + 1, h => by
      show (x :: setLast v (y :: xs)).get? (i + 1) = (x :: y :: xs).get? (i + 1)
      rw [List.get?_cons_succ, List.get?_cons_succ]
      exact setLast_get?_of_lt v (y :: xs) i
        (by simp only [List.length_cons] at h ⊢; omega)

theorem setLast_get?_last (v : ℕ) :
    ∀ (l : List ℕ), l ≠ [] → (setLast v l).get? (l.length - 1) = some v
  | [], h => absurd rfl h
  | [_], _ => rfl
  | x :: y :: xs, _ => by
      show (x :: setLast v (y :: xs)).get? ((x :: y :: xs).length - 1) = some v
      have h1 : (x :: y :: xs).length - 1 = ((y :: xs).length - 1) + 1 := by
        simp only [List.length_cons]; omega
      rw [h1, List.get?_cons_succ]
      exact setLast_get?_last v (y :: xs) (by simp)

theorem rfft_shape_get?_of_lt :
    ∀ (l : List ℕ) (i : ℕ), i + 1 < l.length →
      (rfft_shape_from_signal_shape l).get? i = l.get? i
  | [], _, h => by simp at h
  | [_], i, h => by simp at h
  | x :: y :: xs, 0, h => rfl
  | x :: y :: xs, i + 1, h => by
      show (x :: rfft_shape_from_signal_shape (y :: xs)).get? (i + 1)
        = (x :: y :: xs).get? (i + 1)
      rw [List.get?_cons_succ, List.get?_cons_succ]
      exact rfft_shape_get?_of_lt (y :: xs) i
        (by simp only [List.length_cons] at h ⊢; omega)

theorem rfft_shape_get?_last :
    ∀ (l : List ℕ) (h : l ≠ []),
      (rfft_shape_from_signal_shape l).get? (l.length - 1)
        = some (l.getLast h / 2 + 1)
  | [], h => absurd rfl h
  | [_], _ => rfl
  | x :: y :: xs, _ => by
      show (x :: rfft_shape_from_signal_shape (y :: xs)).get?
          ((x :: y :: xs).length - 1) = _
      have h1 : (x :: y :: xs).length - 1 = ((y :: xs).length - 1) + 1 := by
        simp only [List.length_cons]; omega
      rw [h1, List.get?_cons_succ, List.getLast_cons (by simp : y :: xs ≠ [])]
      exact rfft_shape_get?_last (y :: xs) (by simp)

theorem list_get?_last_eq_getLast :
    ∀ (l : List ℕ) (h : l ≠ []), l.get? (l.length - 1) = some (l.getLast h)
  | [], h => absurd rfl h
  | [_], _ => rfl
  | x :: y :: xs, _ => by
      have h1 : (x :: y :: xs).length - 1 = ((y :: xs).length - 1) + 1 := by
        simp only [List.length_cons]; omega
      rw [h1, List.get?_cons_succ, List.getLast_cons (by simp : y :: xs ≠ [])]
      exact list_get?_last_eq_getLast (y :: xs) (by simp)

theorem avg_self (x : Cx) : avg x x = x := half_smul_add x

/-! ### Claim C4: Hermitian symmetry of the filled 3D half-spectrum -/

/-- C4: after rfft_to_symmetrised_dft_3d on a cubic rfft of sidelength N, every
output coordinate (z, y, x) with x < dc (dc = N/2) equals the complex
conjugate of the value at the point-reflected coordinate (N-z, N-y, N-x)
within the (N+1)-length axes. -/
theorem rfft_to_symmetrised_dft_3d_hermitian (N : ℕ) (X : ℕ → ℕ → ℕ → Cx)
    (z y x : ℕ) (hz : z ≤ N) (hy : y ≤ N) (hx : x < N / 2) :
    rfft_to_symmetrised_dft_3d N X z y x
      = Cx.conj (rfft_to_symmetrised_dft_3d N X (N - z) (N - y) (N - x)) := by
  unfold rfft_to_symmetrised_dft_3d
  rw [if_pos hx, if_neg (by omega)]

/-- Witness for C4 at N = 2, a concrete rfft array and coordinate (0, 1, 0). -/
theorem rfft_to_symmetrised_dft_3d_hermitian_witness :
    rfft_to_symmetrised_dft_3d 2 (fun z y x => ⟨z + y, x + 1⟩) 0 1 0
      = Cx.conj (rfft_to_symmetrised_dft_3d 2 (fun z y x => ⟨z + y, x + 1⟩) 2 1 2) :=
  rfft_to_symmetrised_dft_3d_hermitian 2 (fun z y x => ⟨z + y, x + 1⟩) 0 1 0
    (by decide) (by decide) (by decide)

/-! ### Claim C10: the inserted batch axis is retained -/

/-- C10: on an unbatched (N+1, N+1) input (N = 2m even), the shape returned by
symmetrised_dft_to_rfft_2d is (1, N, N/2+1) — the internally inserted batch
axis is kept — and that is not the 2D shape (N, N/2+1). -/
theorem symmetrised_dft_to_rfft_2d_keeps_batch_axis (m : ℕ) :
    symmetrised_dft_to_rfft_2d_shape [2 * m + 1, 2 * m + 1] = [1, 2 * m, m + 1]
      ∧ ([1, 2 * m, m + 1] : List ℕ) ≠ [2 * m, m + 1] := by
  constructor
  · show [1, 2 * m + 1 - 1, 2 * m + 1 - (2 * m + 1) / 2] = [1, 2 * m, m + 1]
    have h1 : 2 * m + 1 - 1 = 2 * m := by omega
    have h2 : 2 * m + 1 - (2 * m + 1) / 2 = m + 1 := by omega
    rw [h1, h2]
  · intro h
    have hlen := congrArg List.length h
    simp at hlen

/-! ### Claim C7: desymmetrisation averaging order and dropped Nyquist -/

/-- C7: symmetrised_dft_to_dft_2d on a (n+1, n+1) symmetrised DFT averages the
first and last slice along the column axis first, then along the row axis (the
row average reading the already-averaged column values at the corner), and
drops the last index of both axes; symmetrised_dft_to_dft_3d does the same in
axis order last, middle, first, dropping the last index of all three axes. -/
theorem symmetrised_dft_to_dft_characterisation (n : ℕ) (A : ℕ → ℕ → Cx)
    (A3 : ℕ → ℕ → ℕ → Cx) (i j k : ℕ) :
    symmetrised_dft_to_dft_2d (n + 1) (n + 1) A i j
      = (if i = 0 then
           (if j = 0 then avg (avg (A 0 0) (A 0 n)) (avg (A n 0) (A n n))
            else avg (A 0 j) (A n j))
         else (if j = 0 then avg (A i 0) (A i n) else A i j))
    ∧ symmetrised_dft_to_dft_3d (n + 1) (n + 1) (n + 1) A3 i j k
      = (if i = 0 then
           (if j = 0 then
              (if k = 0 then
                 avg (avg (avg (A3 0 0 0) (A3 0 0 n)) (avg (A3 0 n 0) (A3 0 n n)))
                     (avg (avg (A3 n 0 0) (A3 n 0 n)) (avg (A3 n n 0) (A3 n n n)))
               else avg (avg (A3 0 0 k) (A3 0 n k)) (avg (A3 n 0 k) (A3 n n k)))
            else
              (if k = 0 then
                 avg (avg (A3 0 j 0) (A3 0 j n)) (avg (A3 n j 0) (A3 n j n))
               else avg (A3 0 j k) (A3 n j k)))
         else
           (if j = 0 then
              (if k = 0 then
                 avg (avg (A3 i 0 0) (A3 i 0 n)) (avg (A3 i n 0) (A3 i n n))
               else avg (A3 i 0 k) (A3 i n k))
            else (if k = 0 then avg (A3 i j 0) (A3 i j n) else A3 i j k)))
    ∧ decLastTwo [n + 1, n + 1] = [n, n]
    ∧ decLastThree [n + 1, n + 1, n + 1] = [n, n, n] := by
  refine ⟨?_, ?_, ?_, ?_⟩
  · simp only [symmetrised_dft_to_dft_2d, symmetrised_dft_to_dft_2d_writes,
      Nat.add_sub_cancel]
    by_cases hi : i = 0 <;> by_cases hj : j = 0 <;> simp [hi, hj]
  · simp only [symmetrised_dft_to_dft_3d, symmetrised_dft_to_dft_3d_writes,
      Nat.add_sub_cancel]
    by_cases hi : i = 0 <;> by_cases hj : j = 0 <;> by_cases hk : k = 0 <;>
      simp [hi, hj, hk]
  · show [n + 1 - 1, n + 1 - 1] = [n, n]
    simp
  · show [n + 1 - 1, n + 1 - 1, n + 1 - 1] = [n, n, n]
    simp

/-- C8: for all three conversions, inplace = false leaves every element of the
caller's buffer unchanged; inplace = true routes the averaging writes into the
caller's buffer (shown changing a concrete buffer at a concrete element); and
the default of the flag is true in all three. -/
theorem inplace_flag_semantics :
    (∀ (h w : ℕ) (A : ℕ → ℕ → Cx),
        symmetrised_dft_to_dft_2d_input_after h w A false = A)
    ∧ (∀ (d h w : ℕ) (A : ℕ → ℕ → ℕ → Cx),
        symmetrised_dft_to_dft_3d_input_after d h w A false = A)
    ∧ (∀ (h : ℕ) (S : ℕ → ℕ → Cx),
        symmetrised_dft_to_rfft_2d_input_after h S false = S)
    ∧ (∀ (h w : ℕ) (A : ℕ → ℕ → Cx),
        symmetrised_dft_to_dft_2d_input_after h w A true
          = symmetrised_dft_to_dft_2d_writes h w A)
    ∧ (∀ (d h w : ℕ) (A : ℕ → ℕ → ℕ → Cx),
        symmetrised_dft_to_dft_3d_input_after d h w A true
          = symmetrised_dft_to_dft_3d_writes d h w A)
    ∧ (∀ (h : ℕ) (S : ℕ → ℕ → Cx),
        symmetrised_dft_to_rfft_2d_input_after h S true
          = symmetrised_dft_to_rfft_2d_writes h S)
    ∧ symmetrised_dft_to_dft_2d_input_after 3 3 exA true 0 0 ≠ exA 0 0
    ∧ symmetrised_dft_to_dft_3d_input_after 3 3 3 exA3 true 0 0 0 ≠ exA3 0 0 0
    ∧ symmetrised_dft_to_rfft_2d_input_after 3 exA true 0 2 ≠ exA 0 2
    ∧ symmetrised_dft_to_dft_2d_inplace_default = true
    ∧ symmetrised_dft_to_dft_3d_inplace_default = true
    ∧ symmetrised_dft_to_rfft_2d_inplace_default = true := by
  refine ⟨fun _ _ _ => rfl, fun _ _ _ _ => rfl, fun _ _ => rfl,
    fun _ _ _ => rfl, fun _ _ _ _ => rfl, fun _ _ => rfl, ?_, ?_, ?_, rfl, rfl, rfl⟩
  · simp [symmetrised_dft_to_dft_2d_input_after, symmetrised_dft_to_dft_2d_writes,
      exA, avg, half, Cx.smul_def, Cx.add_def, Cx.mk.injEq]
  · simp [symmetrised_dft_to_dft_3d_input_after, symmetrised_dft_to_dft_3d_writes,
      exA3, avg, half, Cx.smul_def, Cx.add_def, Cx.mk.injEq]
  · simp [symmetrised_dft_to_rfft_2d_input_after, symmetrised_dft_to_rfft_2d_writes,
      symToRfft2dStep1, exA, avg, half, Cx.conj, Cx.smul_def, Cx.add_def,
      Cx.mk.injEq]

/-! ### Claim C3: 2D symmetrisation round trip -/

theorem symDft2d_right (m : ℕ) (X : ℕ → ℕ → Cx) (a b : ℕ) (hb : m ≤ b) :
    rfft_to_symmetrised_dft_2d (2 * m) X a b = symRight2d (2 * m) X a b := by
  unfold rfft_to_symmetrised_dft_2d
  rw [if_neg (by omega)]

theorem symRight2d_lt (m : ℕ) (X : ℕ → ℕ → Cx) (a b : ℕ) (ha : a < 2 * m) :
    symRight2d (2 * m) X a b = X ((a + m) % (2 * m)) (b - m) := by
  unfold symRight2d
  rw [if_pos ha]
  have h1 : 2 * m - (2 * m) / 2 = m := by omega
  have h2 : (2 * m) / 2 = m := by omega
  rw [h1, h2]

theorem symRight2d_top (m : ℕ) (X : ℕ → ℕ → Cx) (b : ℕ) (hm : 1 ≤ m) :
    symRight2d (2 * m) X (2 * m) b = X m (b - m) := by
  unfold symRight2d
  rw [if_neg (by omega)]
  have h1 : 0 + (2 * m - (2 * m) / 2) = m := by omega
  have h2 : (2 * m) / 2 = m := by omega
  rw [h1, h2, Nat.mod_eq_of_lt (by omega)]

/-- On the right half-columns m+1..2m, the half-plus-conjugate-flip averaging
of fft.py lines 204-205 reproduces the placed right half exactly, because the
left half was filled as the conjugate flip of the right half. -/
theorem symToRfft2dStep1_eval (m : ℕ) (X : ℕ → ℕ → Cx) (a b : ℕ)
    (hm : 1 ≤ m) (ha : a ≤ 2 * m) (hb1 : m + 1 ≤ b) (hb2 : b ≤ 2 * m) :
    symToRfft2dStep1 (2 * m + 1) (rfft_to_symmetrised_dft_2d (2 * m) X) a b
      = symRight2d (2 * m) X a b := by
  unfold symToRfft2dStep1
  rw [if_pos (by omega)]
  have hrow : 2 * m + 1 - 1 - a = 2 * m - a := by omega
  have hcol : (2 * m + 1) / 2 - 1 - (b - ((2 * m + 1) / 2 + 1)) = 2 * m - b := by
    omega
  rw [hrow, hcol]
  have hleft : 2 * m - b < (2 * m) / 2 := by omega
  rw [show rfft_to_symmetrised_dft_2d (2 * m) X (2 * m - a) (2 * m - b)
        = Cx.conj (symRight2d (2 * m) X (2 * m - (2 * m - a)) (2 * m - (2 * m - b)))
      from by unfold rfft_to_symmetrised_dft_2d; rw [if_pos hleft]]
  have h1 : 2 * m - (2 * m - a) = a := by omega
  have h2 : 2 * m - (2 * m - b) = b := by omega
  rw [h1, h2, Cx.conj_conj, symDft2d_right m X a b (by omega)]
  exact avg_self _

/-- C3: for any rfft X of a square 2D real image with even sidelength N = 2m,
symmetrised_dft_to_rfft_2d of rfft_to_symmetrised_dft_2d of X reproduces the
values of X exactly (the duplicated-Nyquist averaging is the identity when the
duplication came only from the forward symmetrisation). -/
theorem sym_round_trip_2d (m : ℕ) (X : ℕ → ℕ → Cx) (i j : ℕ)
    (hi : i < 2 * m) (hj : j ≤ m) :
    symmetrised_dft_to_rfft_2d (2 * m + 1)
        (rfft_to_symmetrised_dft_2d (2 * m) X) i j = X i j := by
  have hm : 1 ≤ m := by omega
  unfold symmetrised_dft_to_rfft_2d
  have e2 : (2 * m + 1 - 1) / 2 = m := by omega
  have e1 : 2 * m + 1 - 1 = 2 * m := by omega
  have hdc : (2 * m + 1) / 2 = m := by omega
  rw [e2, e1, hdc]
  have haless : (i + m) % (2 * m) < 2 * m := Nat.mod_lt _ (by omega)
  have hsha : ((i + m) % (2 * m) + m) % (2 * m) = i := by
    rw [Nat.mod_add_mod, show i + m + m = i + 2 * m from by ring,
      Nat.add_mod_right, Nat.mod_eq_of_lt hi]
  by_cases hj0 : j = 0
  · subst hj0
    unfold symmetrised_dft_to_rfft_2d_writes
    rw [hdc, if_neg (by omega)]
    unfold symToRfft2dStep1
    rw [hdc, if_neg (by omega)]
    rw [symDft2d_right m X _ _ (by omega), symRight2d_lt m X _ _ haless, hsha]
    congr 1
    omega
  · unfold symmetrised_dft_to_rfft_2d_writes
    rw [hdc, e1]
    by_cases ha0 : (i + m) % (2 * m) = 0
    · rw [if_pos ⟨ha0, by omega⟩]
      rw [symToRfft2dStep1_eval m X 0 (m + j) hm (by omega) (by omega) (by omega),
        symToRfft2dStep1_eval m X (2 * m) (m + j) hm (by omega) (by omega) (by omega)]
      rw [symRight2d_lt m X 0 _ (by omega), symRight2d_top m X _ hm]
      have hzm : (0 + m) % (2 * m) = m := by
        rw [Nat.zero_add]
        exact Nat.mod_eq_of_lt (by omega)
      have him : i = m := by
        rcases Nat.lt_or_ge (i + m) (2 * m) with hlt | hge
        · rw [Nat.mod_eq_of_lt hlt] at ha0
          omega
        · rw [Nat.mod_eq_sub_mod hge, Nat.mod_eq_of_lt (by omega)] at ha0
          omega
      rw [hzm, avg_self]
      rw [him]
      congr 1
      omega
    · rw [if_neg (by simp [ha0])]
      rw [symToRfft2dStep1_eval m X _ (m + j) hm (by omega) (by omega) (by omega)]
      rw [symRight2d_lt m X _ _ haless, hsha]
      congr 1
      omega

/-- Witness for C3 at m = 1 (sidelength N = 2), a concrete rfft and index
(1, 1). -/
theorem sym_round_trip_2d_witness :
    symmetrised_dft_to_rfft_2d (2 * 1 + 1)
        (rfft_to_symmetrised_dft_2d (2 * 1) (fun a b => ⟨a, b⟩)) 1 1
      = (⟨1, 1⟩ : Cx) :=
  sym_round_trip_2d 1 (fun a b => ⟨a, b⟩) 1 1 (by decide) (by decide)

/-! ### Claim C9: rfft_shape_from_signal_shape -/

/-- C9: for a non-empty signal shape, the rfft shape keeps every axis
unchanged except the last, which becomes floor(L/2) + 1; for (8,) the result
is (5,). -/
theorem rfft_shape_from_signal_shape_spec (s : List ℕ) (hne : s ≠ []) :
    (rfft_shape_from_signal_shape s).length = s.length
    ∧ (∀ i, i + 1 < s.length →
        (rfft_shape_from_signal_shape s).get? i = s.get? i)
    ∧ (rfft_shape_from_signal_shape s).get? (s.length - 1)
        = some (s.getLast hne / 2 + 1)
    ∧ rfft_shape_from_signal_shape [8] = [5] := by
  exact ⟨rfft_shape_length s, fun i hi => rfft_shape_get?_of_lt s i hi,
    rfft_shape_get?_last s hne, rfl⟩

/-- Witness for C9 at the concrete shape (4, 8): length, a non-last axis, the
last axis, and the (8,) example. -/
theorem rfft_shape_from_signal_shape_spec_witness :
    (rfft_shape_from_signal_shape [4, 8]).length = 2
    ∧ (rfft_shape_from_signal_shape [4, 8]).get? 0 = some 4
    ∧ (rfft_shape_from_signal_shape [4, 8]).get? 1 = some 5
    ∧ rfft_shape_from_signal_shape [8] = [5] := by
  obtain ⟨h1, h2, h3, h4⟩ := rfft_shape_from_signal_shape_spec [4, 8] (by simp)
  exact ⟨h1, (h2 0 (by decide)).trans rfl, h3, h4⟩

theorem replicate_zero_get? :
    ∀ (n i : ℕ), i < n → (List.replicate n (0 : ℕ)).get? i = some 0
  | 0, _, h => absurd h (by omega)
  | n + 1, 0, _ => rfl
  | n + 1, i + 1, h => by
      show (0 :: List.replicate n 0).get? (i + 1) = some 0
      rw [List.get?_cons_succ]
      exact replicate_zero_get? n i (by omega)

/-! ### Claim C6: fft_center -/

/-- C6: fft_center returns the all-zero index vector when not fftshifted; when
fftshifted, floor(L/2) per axis with the last axis forced to 0 when rfft (for
non-last axes the rfft-adjusted length equals the original length); and the
concrete rule for grid_shape (8, 8), fftshifted=True: (4, 4) with rfft=False
and (4, 0) with rfft=True. -/
theorem fft_center_spec (gs : List ℕ) (r : Bool) (hne : gs ≠ []) :
    fft_center gs false r = List.replicate gs.length 0
    ∧ (∀ i, i + 1 < gs.length →
        (fft_center gs true r).get? i = (gs.get? i).map (fun l => l / 2))
    ∧ (fft_center gs true r).get? (gs.length - 1)
        = some (if r then 0 else gs.getLast hne / 2)
    ∧ fft_center [8, 8] true false = [4, 4]
    ∧ fft_center [8, 8] true true = [4, 0] := by
  refine ⟨?_, ?_, ?_, rfl, rfl⟩
  · cases r
    · rfl
    · show setLast 0 (List.replicate gs.length 0) = List.replicate gs.length 0
      have hlen : (List.replicate gs.length (0 : ℕ)).length = gs.length :=
        List.length_replicate _ _
      have hpos : 1 ≤ gs.length := by
        cases gs with
        | nil => exact absurd rfl hne
        | cons x xs => simp
      apply List.ext_get?
      intro i
      by_cases hi : i + 1 < gs.length
      · rw [setLast_get?_of_lt 0 _ i (by rw [hlen]; exact hi)]
      · by_cases hi2 : i = gs.length - 1
        · subst hi2
          rw [show gs.length - 1
                = (List.replicate gs.length (0 : ℕ)).length - 1 from by rw [hlen]]
          rw [setLast_get?_last 0 _ (by
            intro hnil
            rw [← hlen, hnil] at hpos
            simp at hpos)]
          rw [hlen, replicate_zero_get? gs.length (gs.length - 1) (by omega)]
        · have hout : gs.length ≤ i := by omega
          rw [List.get?_eq_none.mpr (by rw [setLast_length, hlen]; exact hout),
            List.get?_eq_none.mpr (by rw [hlen]; exact hout)]
  · intro i hi
    cases r
    · show (gs.map (fun l => l / 2)).get? i = _
      rw [List.get?_map]
    · show (setLast 0 ((rfft_shape_from_signal_shape gs).map
          (fun l => l / 2))).get? i = _
      rw [setLast_get?_of_lt 0 _ i (by
        rw [List.length_map, rfft_shape_length]; exact hi)]
      rw [List.get?_map, rfft_shape_get?_of_lt gs i hi]
  · cases r
    · show (gs.map (fun l => l / 2)).get? (gs.length - 1) = _
      rw [List.get?_map, list_get?_last_eq_getLast gs hne]
      rfl
    · show (setLast 0 ((rfft_shape_from_signal_shape gs).map
          (fun l => l / 2))).get? (gs.length - 1) = _
      rw [show gs.length - 1 = ((rfft_shape_from_signal_shape gs).map
            (fun l => l / 2)).length - 1 from by
          rw [List.length_map, rfft_shape_length]]
      rw [setLast_get?_last 0 _ (by
        intro hnil
        have hl := congrArg List.length hnil
        rw [List.length_map, rfft_shape_length] at hl
        exact hne (List.length_eq_zero.mp hl))]
      rfl

/-- Witness for C6 at grid_shape (8, 8), rfft = true. -/
theorem fft_center_spec_witness :
    fft_center [8, 8] false true = [0, 0]
    ∧ (fft_center [8, 8] true true).get? 0 = some 4
    ∧ (fft_center [8, 8] true true).get? 1 = some 0
    ∧ fft_center [8, 8] true true = [4, 0] := by
  obtain ⟨h1, h2, h3, _, h5⟩ := fft_center_spec [8, 8] true (by simp)
  exact ⟨h1, (h2 0 (by decide)).trans rfl, h3.trans rfl, h5⟩

theorem lerp_same (t : ℚ) (a : Cx) : lerp t a a = a := by
  cases a
  simp only [lerp, Cx.smul_def, Cx.add_def, Cx.mk.injEq]
  constructor <;> ring

/-! ### Claim C1: zero-fill outside the valid cube -/

/-- C1 (code bug): the inside test of fourier.py line 58 is a disjunction that
holds for every rational coordinate, so extract_slices never zeroes any
sample; at the coordinate (-5, -5, -5) — entirely outside [0, d-1] on every
axis for d = 2 — the border-clamped sample of an all-ones dft is returned with
magnitude 1, not 0. -/
theorem extract_slices_no_zero_fill :
    (∀ g : Q3, inside_test g = true)
    ∧ extract_slices_point 2 (fun _ _ _ => ⟨1, 0⟩) (-5, -5, -5)
        = (⟨1, 0⟩ : Cx) := by
  constructor
  · intro g
    have htriv : ∀ q : ℚ, (decide (q > 0) || decide (q < 1)) = true := by
      intro q
      rcases lt_or_le 0 q with h | h
      · simp [h]
      · simp [lt_of_le_of_lt h one_pos]
    simp [inside_test, htriv]
  · simp only [extract_slices_point]
    rw [if_pos (by
      simp only [inside_test, array_to_grid_sample, Bool.and_eq_true,
        Bool.or_eq_true, decide_eq_true_eq]
      norm_num)]
    simp [grid_sample_point, lerp_same]

/-- C2 counterexample: dimensions (2, 6, 10) on a 8³ grid at voxel (6, 4, 4)
(offset (2, 0, 0) from the center (4, 4, 4)): the code's mask is 1 — the
depth offset 2 is tested against dims1/2 = 3, not dims0/2 = 1 — while the
claim's own-axis bounds give 0. -/
theorem cuboid_counterexample :
    cuboid (2, 6, 10) (8, 8, 8) (6, 4, 4) = 1
      ∧ cuboid_claimed (2, 6, 10) (8, 8, 8) (6, 4, 4) = 0 := by
  constructor
  · simp only [cuboid, coordinate_offset]
    norm_num
  · simp only [cuboid_claimed, coordinate_offset]
    norm_num

/-- C2 amended: with smoothing_radius = 0 the cuboid mask is 1 at exactly the
voxels whose depth offset lies strictly inside (-dims1/2, dims1/2) and whose
height and width offsets both lie strictly inside (-dims2/2, dims2/2) —
dims0 is not used — and 0 elsewhere. -/
theorem cuboid_amended_spec (dims : Q3) (shape : ℕ × ℕ × ℕ)
    (v : ℕ × ℕ × ℕ) :
    cuboid dims shape v =
      if (-(dims.2.1 / 2) < (coordinate_offset shape v).1
            ∧ (coordinate_offset shape v).1 < dims.2.1 / 2)
          ∧ (-(dims.2.2 / 2) < (coordinate_offset shape v).2.1
            ∧ (coordinate_offset shape v).2.1 < dims.2.2 / 2)
          ∧ (-(dims.2.2 / 2) < (coordinate_offset shape v).2.2
            ∧ (coordinate_offset shape v).2.2 < dims.2.2 / 2)
      then 1 else 0 := by
  simp only [cuboid]
  refine if_congr ?_ rfl rfl
  simp only [Bool.and_eq_true, decide_eq_true_eq, gt_iff_lt]
  tauto

/-- C5: a rotated grid point with negative last-axis (rfft) frequency has all
three coordinates negated before the conversion to array coordinates and its
sampled value conjugated after extraction; a point with non-negative last-axis
frequency is sampled at its own coordinates and returned unmodified. -/
theorem project_sample_conjugate_redirect (toDft : Q3 → Q3) (sample : Q3 → Cx)
    (g : Q3) :
    project_sample toDft sample g =
      if g.2.2 < 0 then Cx.conj (sample (toDft (-g.1, -g.2.1, -g.2.2)))
      else sample (toDft g) := by
  unfold project_sample in_redundant_half redirected_grid
  by_cases h : g.2.2 < 0 <;> simp [h]

end Tiltlib
